import Mathlib

/-!
# Verification of `parallel_driver_generate_traffic.py`

Shallow embedding of the etcd traffic driver
(`src/test-template/python-generate-traffic/parallel_driver_generate_traffic.py`).

The script's external collaborators (`helper.connect_to_host`,
`helper.put_request`, `helper.get_request`, `helper.generate_requests`,
`helper.generate_random_string`, `time.time`) live outside the source tree; per
the spec (§6, External Interfaces) they are an opaque boundary API.  We model
them as parameters:

* one run of the traffic generator sees, at each iteration `i`, a `PutEvent`
  (the random key, random value, success flag, error detail and elapsed wall
  clock time of the `put` call) supplied by an environment `env : Nat → PutEvent`;
* the validator's `helper.get_request(client, key)` against a fixed store state
  is a function `store : String → GetResult`;
* wall-clock latencies of the validator's `get` calls are a function
  `lat : Nat → ℚ` from call index to elapsed seconds.

Durations are rationals (seconds), mirroring the script's real-valued
time arithmetic exactly.
-/

/-- Modelled from the spec (§6): result of
`get(connection, key) → (success, error, value)`, the tuple returned by
`helper.get_request`. -/
structure GetResult where
  success : Bool
  error : String
  value : String
deriving DecidableEq, Repr

/-- Modelled from the spec (§6): one iteration of the traffic generator as seen
from the boundary API — the two random strings from the random-string
generator, the `(success, error)` pair returned by `put_request`, and the
elapsed time measured around the call. -/
structure PutEvent where
  key : String
  value : String
  success : Bool
  error : String
  lat : ℚ
deriving DecidableEq, Repr

/-- The loop of `simulate_traffic`: iterations `i, i+1, ...` with `rem`
iterations remaining.  Each iteration records the elapsed time of its put
request; on success it additionally appends `(key, value)` to the accepted
list.  Returns `(kvs, times)` in insertion order. -/
def simulate_traffic_go (env : Nat → PutEvent) : Nat → Nat → List (String × String) × List ℚ
  | _, 0 => ([], [])
  | i, rem + 1 =>
      let e := env i
      let rest := simulate_traffic_go env (i + 1) rem
      (if e.success then (e.key, e.value) :: rest.1 else rest.1, e.lat :: rest.2)

/-- Embedding of `simulate_traffic`: run `num_requests` put attempts against
the environment, returning the accepted key/value pairs and the latency
samples of all attempts. -/
def simulate_traffic (env : Nat → PutEvent) (num_requests : Nat) :
    List (String × String) × List ℚ :=
  simulate_traffic_go env 0 num_requests

/-- One `validate_puts` loop iteration passes (does not trigger the mismatch
return) iff the get failed or the returned value equals the written value. -/
def getPasses (store : String → GetResult) (kv : String × String) : Prop :=
  ¬((store kv.1).success = true ∧ kv.2 ≠ (store kv.1).value)

instance (store : String → GetResult) (kv : String × String) :
    Decidable (getPasses store kv) := by
  unfold getPasses; infer_instance

/-- The loop of `validate_puts`, starting at call index `i`.  Each iteration
issues `get(key)` and records its latency; if the get succeeded and the
returned value differs from the written value the loop returns
`(False, (value, database_value), times)` at once; otherwise it continues, and
after the last pair returns `(True, None, times)`. -/
def validate_puts_go (store : String → GetResult) (lat : Nat → ℚ) :
    List (String × String) → Nat → Bool × Option (String × String) × List ℚ
  | [], _ => (true, none, [])
  | (key, value) :: rest, i =>
      let r := store key
      if r.success = true ∧ value ≠ r.value then
        (false, some (value, r.value), [lat i])
      else
        let t := validate_puts_go store lat rest (i + 1)
        (t.1, t.2.1, lat i :: t.2.2)

/-- Embedding of `validate_puts`: read back every accepted pair in order
against the store, short-circuiting on the first mismatch. -/
def validate_puts (store : String → GetResult) (lat : Nat → ℚ)
    (kvs : List (String × String)) : Bool × Option (String × String) × List ℚ :=
  validate_puts_go store lat kvs 0

/-- State-passing form of the `validate_puts` loop in which the Python local
`kvs` is explicit mutable state threaded through the iteration: iteration `i`
reads element `i` of the current list state and the final state is returned
alongside the result.  Used to express that the loop body never rebinds or
mutates the input sequence. -/
def validate_puts_state (store : String → GetResult) (lat : Nat → ℚ)
    (st : List (String × String)) (i : Nat) (times : List ℚ) :
    (Bool × Option (String × String) × List ℚ) × List (String × String) :=
  if h : i < st.length then
    let kv := st.get ⟨i, h⟩
    let r := store kv.1
    let times' := times ++ [lat i]
    if (r.success = true ∧ kv.2 ≠ r.value) then
      ((false, some (kv.2, r.value), times'), st)
    else
      validate_puts_state store lat st (i + 1) times'
  else
    ((true, none, times), st)
termination_by st.length - i

/-- Linear interpolation percentile as computed by `np.percentile(xs, q)` with
the default interpolation: sort ascending, take the virtual index
`q / 100 * (n - 1)`, and interpolate linearly between the two neighbouring
order statistics. -/
def npPercentile (xs : List ℚ) (q : ℚ) : ℚ :=
  let s := List.insertionSort (· ≤ ·) xs
  let p : ℚ := q / 100 * ((s.length : ℚ) - 1)
  let i : Nat := p.floor.toNat
  let lo := s.getD i 0
  let hi := s.getD (i + 1) lo
  lo + (p - (i : ℚ)) * (hi - lo)

/-- Embedding of `validate_time`: compute `np.percentile(times, 0.95) * 1000`
and return `(False, pct95)` if it meets or exceeds the threshold, else
`(True, pct95)`. -/
def validate_time (times : List ℚ) (threshold : ℚ) : Bool × ℚ :=
  let pct95 := npPercentile times (95 / 100) * 1000
  if pct95 ≥ threshold then (false, pct95)
  else (true, pct95)

/-- The latency sample sequence `[1ms, 2ms, ..., 100ms]`, i.e. `0.001 s`
through `0.100 s`, used by the spec's concrete percentile test. -/
def msSamples : List ℚ :=
  (List.range 100).map fun i : ℕ => ((i : ℚ) + 1) / 1000

/-! ## Helper lemmas about `npPercentile` at argument `0.95` -/

lemma percentile_arg_nonneg (n : ℕ) (h1 : 1 ≤ n) :
    0 ≤ (95 : ℚ) / 100 / 100 * ((n : ℚ) - 1) := by
  have hn : (1 : ℚ) ≤ (n : ℚ) := by exact_mod_cast h1
  nlinarith

lemma percentile_arg_lt_one (n : ℕ) (h2 : n ≤ 100) :
    (95 : ℚ) / 100 / 100 * ((n : ℚ) - 1) < 1 := by
  have hn : (n : ℚ) ≤ 100 := by exact_mod_cast h2
  nlinarith

lemma rat_floor_eq_intFloor (q : ℚ) : q.floor = ⌊q⌋ :=
  (Rat.floor_def' q).trans Rat.floor_def.symm

lemma percentile_arg_floor (n : ℕ) (h1 : 1 ≤ n) (h2 : n ≤ 100) :
    ((95 : ℚ) / 100 / 100 * ((n : ℚ) - 1)).floor = 0 := by
  rw [rat_floor_eq_intFloor, Int.floor_eq_zero_iff]
  exact Set.mem_Ico.mpr ⟨percentile_arg_nonneg n h1, percentile_arg_lt_one n h2⟩

/-- For at most 100 samples the virtual index `0.95 / 100 * (n - 1)` lies in
`[0, 1)`, so the interpolation happens between the two smallest order
statistics. -/
lemma npPercentile_eq_small (xs : List ℚ) (h1 : 1 ≤ xs.length) (h2 : xs.length ≤ 100) :
    npPercentile xs (95 / 100) =
      (List.insertionSort (· ≤ ·) xs).getD 0 0 +
        95 / 100 / 100 * ((xs.length : ℚ) - 1) *
          ((List.insertionSort (· ≤ ·) xs).getD 1 ((List.insertionSort (· ≤ ·) xs).getD 0 0) -
            (List.insertionSort (· ≤ ·) xs).getD 0 0) := by
  simp only [npPercentile, List.length_insertionSort, percentile_arg_floor xs.length h1 h2]
  norm_num

lemma npPercentile_between (xs : List ℚ) (h1 : 1 ≤ xs.length) (h2 : xs.length ≤ 100) :
    (List.insertionSort (· ≤ ·) xs).getD 0 0 ≤ npPercentile xs (95 / 100) ∧
      npPercentile xs (95 / 100) ≤
        (List.insertionSort (· ≤ ·) xs).getD 1 ((List.insertionSort (· ≤ ·) xs).getD 0 0) := by
  have hlen : (List.insertionSort (· ≤ ·) xs).length = xs.length :=
    List.length_insertionSort _ _
  set s := List.insertionSort (· ≤ ·) xs with hs
  have hl : s.getD 0 0 ≤ s.getD 1 (s.getD 0 0) := by
    rcases Nat.lt_or_ge 1 s.length with h | h
    · rw [List.getD_eq_getElem s (s.getD 0 0) h, List.getD_eq_getElem s 0 (by omega)]
      have hsort : List.Sorted (· ≤ ·) s := List.sorted_insertionSort _ xs
      simpa using hsort.rel_get_of_lt (a := ⟨0, by omega⟩) (b := ⟨1, h⟩) (by simp)
    · rw [List.getD_eq_default s (s.getD 0 0) h]
  have hfrac0 : 0 ≤ (95 : ℚ) / 100 / 100 * ((xs.length : ℚ) - 1) :=
    percentile_arg_nonneg xs.length h1
  have hfrac1 : (95 : ℚ) / 100 / 100 * ((xs.length : ℚ) - 1) < 1 :=
    percentile_arg_lt_one xs.length h2
  rw [npPercentile_eq_small xs h1 h2, ← hs]
  constructor <;> nlinarith

/-! ## Helper lemmas about the `validate_puts` loop -/

lemma range_map_shift {α : Type} (lat : Nat → α) (n i : Nat) :
    lat i :: (List.range n).map (fun j => lat (i + 1 + j)) =
      (List.range (n + 1)).map fun j => lat (i + j) := by
  rw [List.range_succ_eq_map, List.map_cons, List.map_map]
  refine congrArg₂ List.cons (by simp) ?_
  apply List.map_congr_left
  intro j _
  simp only [Function.comp]
  congr 1
  omega

lemma validate_puts_go_all_pass (store : String → GetResult) (lat : Nat → ℚ) :
    ∀ (kvs : List (String × String)) (i : Nat),
      (∀ kv ∈ kvs, getPasses store kv) →
      validate_puts_go store lat kvs i =
        (true, none, (List.range kvs.length).map fun j => lat (i + j)) := by
  intro kvs
  induction kvs with
  | nil => intro i _; simp [validate_puts_go]
  | cons kv rest ih =>
      intro i h
      obtain ⟨key, value⟩ := kv
      have hkv := h (key, value) (List.mem_cons_self _ _)
      have hrest : ∀ kv ∈ rest, getPasses store kv :=
        fun kv hm => h kv (List.mem_cons_of_mem _ hm)
      simp only [validate_puts_go]
      rw [if_neg (by simpa [getPasses] using hkv), ih (i + 1) hrest,
        List.length_cons, ← range_map_shift lat rest.length i]

lemma validate_puts_go_mismatch (store : String → GetResult) (lat : Nat → ℚ)
    (k v : String) (post : List (String × String))
    (hk : (store k).success = true) (hv : v ≠ (store k).value) :
    ∀ (pre : List (String × String)) (i : Nat),
      (∀ kv ∈ pre, getPasses store kv) →
      validate_puts_go store lat (pre ++ (k, v) :: post) i =
        (false, some (v, (store k).value),
          (List.range (pre.length + 1)).map fun j => lat (i + j)) := by
  intro pre
  induction pre with
  | nil =>
      intro i _
      rw [List.nil_append]
      simp only [validate_puts_go]
      rw [if_pos (⟨hk, hv⟩ : (store k).success = true ∧ v ≠ (store k).value)]
      simp [List.range_succ]
  | cons kv rest ih =>
      intro i h
      obtain ⟨key, value⟩ := kv
      have hkv := h (key, value) (List.mem_cons_self _ _)
      have hrest : ∀ kv ∈ rest, getPasses store kv :=
        fun kv hm => h kv (List.mem_cons_of_mem _ hm)
      rw [List.cons_append]
      simp only [validate_puts_go]
      rw [if_neg (by simpa [getPasses] using hkv), ih (i + 1) hrest,
        List.length_cons, ← range_map_shift lat (rest.length + 1) i]

/-! ## Helper lemmas about the `simulate_traffic` loop -/

lemma simulate_traffic_go_times (env : Nat → PutEvent) :
    ∀ (rem i : Nat),
      (simulate_traffic_go env i rem).2 =
        (List.range rem).map fun j => (env (i + j)).lat := by
  intro rem
  induction rem with
  | zero => intro i; simp [simulate_traffic_go]
  | succ n ih =>
      intro i
      simp only [simulate_traffic_go]
      rw [ih (i + 1), ← range_map_shift (fun j => (env j).lat) n i]

lemma simulate_traffic_go_kvs (env : Nat → PutEvent) :
    ∀ (rem i : Nat),
      (simulate_traffic_go env i rem).1.length ≤ rem ∧
      ∀ p ∈ (simulate_traffic_go env i rem).1, ∃ j, i ≤ j ∧ j < i + rem ∧
        (env j).success = true ∧ p = ((env j).key, (env j).value) := by
  intro rem
  induction rem with
  | zero => intro i; simp [simulate_traffic_go]
  | succ n ih =>
      intro i
      obtain ⟨ihlen, ihmem⟩ := ih (i + 1)
      simp only [simulate_traffic_go]
      by_cases hs : (env i).success = true
      · rw [if_pos hs]
        refine ⟨by simpa using Nat.succ_le_succ ihlen, ?_⟩
        intro p hp
        rcases List.mem_cons.mp hp with h | h
        · exact ⟨i, le_refl i, by omega, hs, h⟩
        · obtain ⟨j, hj1, hj2, hj3, hj4⟩ := ihmem p h
          exact ⟨j, by omega, by omega, hj3, hj4⟩
      · rw [if_neg hs]
        refine ⟨by omega, ?_⟩
        intro p hp
        obtain ⟨j, hj1, hj2, hj3, hj4⟩ := ihmem p hp
        exact ⟨j, by omega, by omega, hj3, hj4⟩

/-! ## The booleans and mismatch record of `validate_puts` do not depend on timing -/

lemma validate_puts_go_lat_irrel (store : String → GetResult) (lat lat' : Nat → ℚ) :
    ∀ (kvs : List (String × String)) (i i' : Nat),
      (validate_puts_go store lat kvs i).1 = (validate_puts_go store lat' kvs i').1 ∧
      (validate_puts_go store lat kvs i).2.1 = (validate_puts_go store lat' kvs i').2.1 := by
  intro kvs
  induction kvs with
  | nil => intro i i'; simp [validate_puts_go]
  | cons kv rest ih =>
      intro i i'
      obtain ⟨key, value⟩ := kv
      simp only [validate_puts_go]
      by_cases hc : (store key).success = true ∧ value ≠ (store key).value
      · rw [if_pos hc, if_pos hc]
        exact ⟨rfl, rfl⟩
      · rw [if_neg hc, if_neg hc]
        simpa using ih (i + 1) (i' + 1)

/-! ## The state-threaded loop returns its input list unchanged -/

lemma validate_puts_state_spec (store : String → GetResult) (lat : Nat → ℚ)
    (st : List (String × String)) :
    ∀ (fuel i : Nat) (times : List ℚ), st.length - i ≤ fuel →
      validate_puts_state store lat st i times =
        (((validate_puts_go store lat (st.drop i) i).1,
          (validate_puts_go store lat (st.drop i) i).2.1,
          times ++ (validate_puts_go store lat (st.drop i) i).2.2), st) := by
  intro fuel
  induction fuel with
  | zero =>
      intro i times h
      have hle : st.length ≤ i := by omega
      rw [validate_puts_state, dif_neg (by omega), List.drop_eq_nil_of_le hle]
      simp [validate_puts_go]
  | succ n ih =>
      intro i times h
      rcases Nat.lt_or_ge i st.length with hi | hi
      · rw [validate_puts_state, dif_pos hi, List.drop_eq_getElem_cons hi]
        rcases hkv : st[i] with ⟨key, value⟩
        have hget : st.get ⟨i, hi⟩ = (key, value) := by
          rw [List.get_eq_getElem, hkv]
        simp only [hget, validate_puts_go]
        by_cases hc : (store key).success = true ∧ value ≠ (store key).value
        · rw [if_pos hc, if_pos hc]
        · rw [if_neg hc, if_neg hc, ih (i + 1) (times ++ [lat i]) (by omega)]
          simp
      · rw [validate_puts_state, dif_neg (by omega), List.drop_eq_nil_of_le hi]
        simp [validate_puts_go]

/-! ## Concrete evaluations -/

lemma npPercentile_one_one : npPercentile [(1 : ℚ), 1] (95 / 100) = 1 := by
  have hs : List.Sorted (· ≤ ·) [(1 : ℚ), 1] := by simp [List.sorted_cons]
  rw [npPercentile_eq_small [(1 : ℚ), 1] (by simp) (by simp), hs.insertionSort_eq]
  norm_num [List.getD]

lemma validate_time_snd (times : List ℚ) (threshold : ℚ) :
    (validate_time times threshold).2 = npPercentile times (95 / 100) * 1000 := by
  by_cases hc : npPercentile times (95 / 100) * 1000 ≥ threshold
  · simp [validate_time, hc]
  · simp [validate_time, hc]

lemma msSamples_length : msSamples.length = 100 := by
  rw [msSamples, List.length_map, List.length_range]

lemma msSamples_sorted : List.Sorted (· ≤ ·) msSamples := by
  rw [msSamples]
  have H : ∀ a b : Nat, a < b → ((a : ℚ) + 1) / 1000 ≤ ((b : ℚ) + 1) / 1000 := by
    intro a b hab
    have h : (a : ℚ) ≤ (b : ℚ) := by exact_mod_cast hab.le
    linarith
  exact List.Pairwise.map _ H (List.sorted_lt_range 100)

lemma msSamples_getD_zero : msSamples.getD 0 0 = 1 / 1000 := by
  rw [List.getD_eq_getElem msSamples 0 (by rw [msSamples_length]; omega)]
  simp only [msSamples, List.getElem_map, List.getElem_range]
  norm_num

lemma msSamples_getD_one (d : ℚ) : msSamples.getD 1 d = 2 / 1000 := by
  rw [List.getD_eq_getElem msSamples d (by rw [msSamples_length]; omega)]
  simp only [msSamples, List.getElem_map, List.getElem_range]
  norm_num

/-! ## Claim theorems -/

/-- C1: if `validate_puts` encounters a pair whose get succeeds and whose
returned value differs from the originally written value (all earlier pairs
having passed), it immediately returns
`(False, (expected_value, actual_value), times)`, issuing no get requests for
any subsequent pair: the result is independent of `post` and the latency
sample sequence covers exactly the `pre.length + 1` gets actually issued. -/
theorem C1_mismatch_short_circuits (store : String → GetResult) (lat : Nat → ℚ)
    (pre post : List (String × String)) (k v : String)
    (hpre : ∀ kv ∈ pre, getPasses store kv)
    (hk : (store k).success = true) (hv : v ≠ (store k).value) :
    validate_puts store lat (pre ++ (k, v) :: post) =
      (false, some (v, (store k).value), (List.range (pre.length + 1)).map lat) := by
  unfold validate_puts
  rw [validate_puts_go_mismatch store lat k v post hk hv pre 0 hpre]
  simp

theorem C1_witness :
    validate_puts (fun _ => ⟨true, "", "v2"⟩) (fun _ => 1) [("k1", "v1"), ("k2", "v9")] =
      (false, some ("v1", "v2"), [1]) := by
  have h := C1_mismatch_short_circuits (fun _ => ⟨true, "", "v2"⟩) (fun _ => 1)
    [] [("k2", "v9")] "k1" "v1" (by simp) rfl (by decide)
  simpa [List.range_succ] using h

/-- C2: if every pair's get either reports failure or returns the originally
written value, `validate_puts` returns `(True, None, times)` where `times`
holds one latency sample per pair. -/
theorem C2_all_match_returns_true (store : String → GetResult) (lat : Nat → ℚ)
    (kvs : List (String × String))
    (h : ∀ kv ∈ kvs, (store kv.1).success = false ∨ kv.2 = (store kv.1).value) :
    validate_puts store lat kvs = (true, none, (List.range kvs.length).map lat) := by
  unfold validate_puts
  rw [validate_puts_go_all_pass store lat kvs 0 ?_]
  · simp
  · intro kv hkv
    rcases h kv hkv with hf | hm
    · intro hc
      rw [hf] at hc
      exact Bool.false_ne_true hc.1
    · intro hc
      exact hc.2 hm

theorem C2_witness :
    validate_puts
        (fun k => if k = "a" then ⟨true, "", "x"⟩ else ⟨false, "err", "z"⟩)
        (fun _ => 1) [("a", "x"), ("b", "y")] =
      (true, none, [1, 1]) := by
  have h := C2_all_match_returns_true
    (fun k => if k = "a" then ⟨true, "", "x"⟩ else ⟨false, "err", "z"⟩)
    (fun _ => 1) [("a", "x"), ("b", "y")] (by decide)
  simpa [List.range_succ] using h

/-- C3: every entry of the accepted key/value sequence returned by
`simulate_traffic` came from a put attempt of this run that reported success,
and the accepted sequence is no longer than the number of put requests
issued. -/
theorem C3_accepted_from_successful_puts (env : Nat → PutEvent) (n : Nat) :
    (simulate_traffic env n).1.length ≤ n ∧
    ∀ p ∈ (simulate_traffic env n).1,
      ∃ i, i < n ∧ (env i).success = true ∧ p = ((env i).key, (env i).value) := by
  obtain ⟨hlen, hmem⟩ := simulate_traffic_go_kvs env n 0
  refine ⟨hlen, ?_⟩
  intro p hp
  obtain ⟨j, _, hj2, hj3, hj4⟩ := hmem p hp
  exact ⟨j, by omega, hj3, hj4⟩

theorem C3_witness :
    ∃ i, i < 2 ∧ ((fun _ => (⟨"k", "v", true, "", 1⟩ : PutEvent)) i).success = true ∧
      ("k", "v") = (((fun _ => (⟨"k", "v", true, "", 1⟩ : PutEvent)) i).key,
        ((fun _ => (⟨"k", "v", true, "", 1⟩ : PutEvent)) i).value) := by
  have h := C3_accepted_from_successful_puts (fun _ => ⟨"k", "v", true, "", 1⟩) 2
  exact h.2 ("k", "v") (by decide)

/-- C4: `simulate_traffic` with request count `n` performs exactly `n` put
attempts — one per index of `List.range n` — and its latency sample sequence
has length exactly `n` regardless of individual success or failure. -/
theorem C4_exactly_n_put_attempts (env : Nat → PutEvent) (n : Nat) :
    (simulate_traffic env n).2 = (List.range n).map (fun i => (env i).lat) ∧
    (simulate_traffic env n).2.length = n := by
  have h := simulate_traffic_go_times env n 0
  unfold simulate_traffic
  rw [h]
  simp

/-- C5, as stated, is false: on the sample sequence `[1, 1]` (seconds) with
threshold `1 ms` the percentile in milliseconds is `1000 ≥ 1`, yet
`validate_time` returns the boolean `false`, not `true`. -/
theorem C5_counterexample :
    npPercentile [(1 : ℚ), 1] (95 / 100) * 1000 ≥ 1 ∧
      (validate_time [(1 : ℚ), 1] 1).1 = false := by
  constructor
  · rw [npPercentile_one_one]; norm_num
  · simp [validate_time, npPercentile_one_one]

/-- C5 (amended): for every non-empty duration sequence and millisecond
threshold, the boolean component of `validate_time` is `true` exactly when the
computed percentile converted to milliseconds is strictly below the threshold
(it is `false` when the percentile meets or exceeds it). -/
theorem C5_boolean_iff_strictly_below (times : List ℚ) (threshold : ℚ)
    (_h : times ≠ []) :
    ((validate_time times threshold).1 = true ↔
      npPercentile times (95 / 100) * 1000 < threshold) ∧
    (validate_time times threshold).2 = npPercentile times (95 / 100) * 1000 := by
  refine ⟨?_, validate_time_snd times threshold⟩
  by_cases hc : npPercentile times (95 / 100) * 1000 ≥ threshold
  · simp only [validate_time, ge_iff_le, hc, if_true]
    constructor
    · intro hfalse
      exact absurd hfalse (by simp)
    · intro hlt
      linarith
  · simp only [validate_time, ge_iff_le, hc, if_false]
    simpa using lt_of_not_ge hc

theorem C5_witness :
    ((validate_time [(1 : ℚ), 1] 2000).1 = true ↔
      npPercentile [(1 : ℚ), 1] (95 / 100) * 1000 < 2000) ∧
    (validate_time [(1 : ℚ), 1] 2000).2 = npPercentile [(1 : ℚ), 1] (95 / 100) * 1000 :=
  C5_boolean_iff_strictly_below [(1 : ℚ), 1] 2000 (by simp)

/-- C6: the value `validate_time` compares against the threshold is
`np.percentile(times, 0.95) * 1000` — the percentile at argument `0.95` on
numpy's 0‑to‑100 scale — and for any non-empty sequence of at most 100 samples
that percentile lies between the smallest and the second-smallest sorted
sample (for a single sample both bounds degenerate to that sample), a value
near the minimum of the distribution rather than the 95th percentile. -/
theorem C6_percentile_near_minimum (times : List ℚ) (threshold : ℚ)
    (h1 : 1 ≤ times.length) (h2 : times.length ≤ 100) :
    (validate_time times threshold).2 = npPercentile times (95 / 100) * 1000 ∧
    (List.insertionSort (· ≤ ·) times).getD 0 0 ≤ npPercentile times (95 / 100) ∧
    npPercentile times (95 / 100) ≤
      (List.insertionSort (· ≤ ·) times).getD 1
        ((List.insertionSort (· ≤ ·) times).getD 0 0) :=
  ⟨validate_time_snd times threshold,
    (npPercentile_between times h1 h2).1, (npPercentile_between times h1 h2).2⟩

theorem C6_witness :
    (validate_time [(3 : ℚ), 7] 5).2 = npPercentile [(3 : ℚ), 7] (95 / 100) * 1000 ∧
    (List.insertionSort (· ≤ ·) [(3 : ℚ), 7]).getD 0 0 ≤ npPercentile [(3 : ℚ), 7] (95 / 100) ∧
    npPercentile [(3 : ℚ), 7] (95 / 100) ≤
      (List.insertionSort (· ≤ ·) [(3 : ℚ), 7]).getD 1
        ((List.insertionSort (· ≤ ·) [(3 : ℚ), 7]).getD 0 0) :=
  C6_percentile_near_minimum [(3 : ℚ), 7] 5 (by simp) (by simp)

/-- C7: on the latency samples `[1ms, 2ms, ..., 100ms]` (i.e. `0.001 s` through
`0.100 s`) with threshold `1000 ms`, `validate_time` returns the boolean
`true` together with a computed percentile value of at most `1000 ms`. -/
theorem C7_concrete_latency_check :
    (validate_time msSamples 1000).1 = true ∧ (validate_time msSamples 1000).2 ≤ 1000 := by
  have hb := npPercentile_between msSamples (by rw [msSamples_length]; omega)
    (by rw [msSamples_length])
  rw [msSamples_sorted.insertionSort_eq, msSamples_getD_one (msSamples.getD 0 0)] at hb
  have hle : npPercentile msSamples (95 / 100) * 1000 ≤ 2 := by
    have := hb.2
    linarith
  have hlt : ¬(npPercentile msSamples (95 / 100) * 1000 ≥ 1000) := by linarith
  constructor
  · simp [validate_time, hlt]
  · rw [validate_time_snd]
    linarith

/-- C8: re-running `validate_puts` over the same accepted sequence against the
same fixed store yields the same boolean verdict and the same mismatch record,
even if the observed per-call latencies of the two runs differ arbitrarily:
the reads do not depend on or mutate any hidden state. -/
theorem C8_rerun_same_verdict (store : String → GetResult) (lat lat' : Nat → ℚ)
    (kvs : List (String × String)) :
    (validate_puts store lat kvs).1 = (validate_puts store lat' kvs).1 ∧
    (validate_puts store lat kvs).2.1 = (validate_puts store lat' kvs).2.1 :=
  validate_puts_go_lat_irrel store lat lat' kvs 0 0

/-- C9: the latency sample sequence returned by `validate_puts` has one entry
per get actually attempted: on a run where every pair passes it has the length
of the input sequence, and on a run whose first mismatch sits after `pre` it
has exactly `pre.length + 1` entries, counting the mismatching get itself. -/
theorem C9_times_length_counts_gets (store : String → GetResult) (lat : Nat → ℚ) :
    (∀ kvs : List (String × String), (∀ kv ∈ kvs, getPasses store kv) →
      (validate_puts store lat kvs).2.2.length = kvs.length) ∧
    (∀ (pre post : List (String × String)) (k v : String),
      (∀ kv ∈ pre, getPasses store kv) → (store k).success = true →
      v ≠ (store k).value →
      (validate_puts store lat (pre ++ (k, v) :: post)).2.2.length = pre.length + 1) := by
  constructor
  · intro kvs h
    unfold validate_puts
    rw [validate_puts_go_all_pass store lat kvs 0 h]
    simp
  · intro pre post k v hpre hk hv
    unfold validate_puts
    rw [validate_puts_go_mismatch store lat k v post hk hv pre 0 hpre]
    simp

theorem C9_witness :
    (validate_puts (fun k => if k = "a" then ⟨true, "", "x"⟩ else ⟨true, "", "w"⟩)
      (fun _ => 1) [("a", "x")]).2.2.length = 1 ∧
    (validate_puts (fun k => if k = "a" then ⟨true, "", "x"⟩ else ⟨true, "", "w"⟩)
      (fun _ => 1) ([("a", "x")] ++ ("b", "y") :: [("c", "z")])).2.2.length = 1 + 1 := by
  have h := C9_times_length_counts_gets
    (fun k => if k = "a" then ⟨true, "", "x"⟩ else ⟨true, "", "w"⟩) (fun _ => 1)
  constructor
  · simpa using h.1 [("a", "x")] (by decide)
  · simpa using h.2 [("a", "x")] [("c", "z")] "b" "y" (by decide) (by decide) (by decide)

/-- C10: the validation loop leaves the accepted key/value sequence unchanged:
threading the Python local `kvs` through every iteration, the list after the
call — on the success path and on the mismatch path alike — is the input list,
and the computed result agrees with `validate_puts`. -/
theorem C10_input_sequence_unchanged (store : String → GetResult) (lat : Nat → ℚ)
    (kvs : List (String × String)) :
    (validate_puts_state store lat kvs 0 []).2 = kvs ∧
    (validate_puts_state store lat kvs 0 []).1 = validate_puts store lat kvs := by
  have h := validate_puts_state_spec store lat kvs kvs.length 0 [] (by omega)
  rw [h]
  unfold validate_puts
  simp
